import Mathlib

/-!
Verification of the rtg pipeline and schedule core.

Shallow embedding of `src/rtg/pipeline.py` (trial memory, decoder-parameter
tuning search, test-suite runner) and `src/rtg/module/schedule.py`
(Noam learning-rate schedule, scheduled optimizer wrapper).

Modelling conventions:
- Python ints are `ℤ`, floats are `ℚ` in the pipeline/optimizer glue code
  (all values there are produced by exact arithmetic on inputs), and `ℝ`
  for the Noam schedule formula whose shape claims are real-analytic.
- Python dicts (insertion ordered) are association lists `List (key × value)`.
- Fallible operations return `Except`; external effectful operations
  (decoding, BLEU scoring, the random number generator) are parameters.
-/

namespace RTG

/-- A decode-configuration key `(beam_size, ensemble_size, lp_alpha)`;
Python compares such tuples lexicographically. -/
structure TrialKey where
  beam : ℤ
  ens : ℤ
  alpha : ℚ
deriving DecidableEq, Repr

/-- The in-memory trial memo: insertion-ordered mapping from key to score,
modelling the Python dict `memory : Dict[Tuple, float]`. -/
abbrev Memory := List (TrialKey × ℚ)

/-- Keys of the memo, in insertion order (Python `dict` keys). -/
def memKeys (m : Memory) : List TrialKey := m.map Prod.fst

/-- Python dict update `memory[k] = v`: replace the value in place when the
key is present, otherwise append at the end. -/
def insertMem (m : Memory) (k : TrialKey) (v : ℚ) : Memory :=
  match m with
  | [] => [(k, v)]
  | (k0, v0) :: rest =>
      if k0 = k then (k0, v) :: rest else (k0, v0) :: insertMem rest k v

/-- Python tuple comparison on `TrialKey` (lexicographic on
`(beam, ens, alpha)`), as a Boolean strict order. -/
def keyLtB (a b : TrialKey) : Bool :=
  a.beam < b.beam ∨ (a.beam = b.beam ∧
    (a.ens < b.ens ∨ (a.ens = b.ens ∧ a.alpha < b.alpha)))

/-- Selection of `best_params` by `sorted(memory.items(), key=lambda x: x[0],
reverse=True)[0]` (pipeline.py line 139): the memo entry whose KEY tuple is maximal; on
equal keys the earliest entry wins (Python sort is stable).  Returns
`none` on an empty memo, where the Python code raises `IndexError`. -/
def selectBest (m : Memory) : Option (TrialKey × ℚ) :=
  match m with
  | [] => none
  | x :: xs => some (xs.foldl (fun best y => if keyLtB best.1 y.1 then y else best) x)

/-- Python `round(q, 2)` on the exact rationals of this model: round to
hundredths (half away from floor). -/
def round2 (q : ℚ) : ℚ := (⌊q * 100 + 1 / 2⌋ : ℚ) / 100

/-- Rendering of a Python int by `str(n)`. -/
def pyIntRepr (n : ℤ) : String := toString n

/-- Model of Python float `repr` for the two-decimal values stored in
trial keys (shortest decimal form, as CPython prints them). -/
def pyFloatRepr (q : ℚ) : String :=
  let sign := if q < 0 then "-" else ""
  let n : ℤ := ⌊|q| * 100 + 1 / 2⌋
  let ip := n / 100
  let fr := n % 100
  if fr = 0 then sign ++ toString ip ++ ".0"
  else if fr % 10 = 0 then sign ++ toString ip ++ "." ++ toString (fr / 10)
  else sign ++ toString ip ++ "." ++ (if fr < 10 then "0" else "") ++ toString fr

/-- Rendering `str((b, e, a))`: the Python tuple repr used as the JSON key at
pipeline.py line 143 (`data = {str(k): v for k, v in memory.items()}`). -/
def pyTupleRepr (k : TrialKey) : String :=
  "(" ++ pyIntRepr k.beam ++ ", " ++ pyIntRepr k.ens ++ ", " ++
    pyFloatRepr k.alpha ++ ")"

/-- The persisted `scores.json` content: the stringified-key dict written
in the `finally` block (pipeline.py lines 142-144). -/
def persistMemory (m : Memory) : List (String × ℚ) :=
  m.map fun kv => (pyTupleRepr kv.1, kv.2)

/-- Python runtime errors surfaced by the loading code. -/
inductive PyError where
  | attributeError : String → PyError
deriving DecidableEq, Repr

/-- The call `data.item()` where `data` is the dict produced by `json.load`
(pipeline.py line 107): Python dicts have no method `item` (the method is
`items`), so this unconditionally raises `AttributeError`. -/
def dict_item (_data : List (String × ℚ)) : Except PyError (List (String × ℚ)) :=
  Except.error (PyError.attributeError "dict object has no attribute item")

/-- Decimal-literal parser used to model `eval` on the float component of
a stringified key. -/
def parseDecimalNat (s : String) : ℚ :=
  match s.splitOn "." with
  | [ip] => ((ip.toNat?).getD 0 : ℚ)
  | [ip, fp] => ((ip.toNat?).getD 0 : ℚ) + ((fp.toNat?).getD 0 : ℚ) / (10 : ℚ) ^ fp.length
  | _ => 0

/-- Signed decimal-literal parser (model of `eval` on a float literal). -/
def parseDecimal (s : String) : ℚ :=
  if s.startsWith "-" then -(parseDecimalNat (s.drop 1)) else parseDecimalNat s

/-- Model of `eval(k)` on a string of the form `"(b, e, a)"` produced by
`pyTupleRepr` (pipeline.py line 107). -/
def pyEvalKey (s : String) : TrialKey :=
  let inner := (s.drop 1).dropRight 1
  match inner.splitOn ", " with
  | [a, b, c] => ⟨(a.toInt?).getD 0, (b.toInt?).getD 0, parseDecimal c⟩
  | _ => ⟨0, 0, 0⟩

/-- Loading the trial memo at the start of `tune_decoder_params`
(pipeline.py lines 102-107): when no `scores.json` exists the memo is
empty; when one exists the code runs
`memory = {eval(k): v for k, v in data.item()}`, whose `data.item()`
call raises before any key is parsed. -/
def loadMemory (file : Option (List (String × ℚ))) : Except PyError Memory :=
  match file with
  | none => Except.ok []
  | some data => do
      let items ← dict_item data
      Except.ok (items.map fun kv => (pyEvalKey kv.1, kv.2))

/-- The repaired load (`data.items()` instead of `data.item()`), kept to
check that the stringified keys would round-trip under the intended code. -/
def loadMemoryFixed (file : Option (List (String × ℚ))) : Except PyError Memory :=
  match file with
  | none => Except.ok []
  | some data => Except.ok (data.map fun kv => (pyEvalKey kv.1, kv.2))

/-! ### Trial generation (pipeline.py lines 109-121)

The random number generator is a parameter: `randB i`, `randE i`, `randA i`
are the `i`-th draws of `random.randint(*beam_size)`, `random.randint(*ensemble)`
and `random.uniform(*lp_alpha)` respectively. -/

/-- Normalisation of caller-suggested configurations (line 111):
`suggested = [(x[0], x[1], round(x[2], 2)) for x in suggested]`. -/
def normalizeSuggested (s : List (ℤ × ℤ × ℚ)) : List TrialKey :=
  s.map fun x => ⟨x.1, x.2.1, round2 x.2.2⟩

/-- Filtering `suggested_new = [x for x in suggested if x not in memory]`
(line 112),
after normalisation. -/
def suggestedNew (m : Memory) (s : List (ℤ × ℤ × ℚ)) : List TrialKey :=
  (normalizeSuggested s).filter fun x => ¬ x ∈ memKeys m

/-- The count `new_trials = trials - len(memory)` (line 117). -/
def newTrialCount (trials : ℤ) (m : Memory) : ℤ := trials - m.length

/-- Lines 109-121: build the three parallel lists `beam_sizes`,
`ensembles`, `lp_alphas` from the non-memoised suggestions plus
`new_trials` fresh random draws (only when `new_trials > 0`). -/
def genTrialLists (trials : ℤ) (m : Memory) (suggested : List (ℤ × ℤ × ℚ))
    (randB randE : ℕ → ℤ) (randA : ℕ → ℚ) :
    List ℤ × List ℤ × List ℚ :=
  let sNew := if suggested.isEmpty then [] else suggestedNew m suggested
  let beam_sizes := sNew.map TrialKey.beam
  let ensembles := sNew.map TrialKey.ens
  let lp_alphas := sNew.map TrialKey.alpha
  let n := newTrialCount trials m
  if 0 < n then
    (beam_sizes ++ (List.range n.toNat).map randB,
     ensembles ++ (List.range n.toNat).map randE,
     lp_alphas ++ (List.range n.toNat).map fun i => round2 (randA i))
  else
    (beam_sizes, ensembles, lp_alphas)

/-- Zipping `zip(beam_sizes, ensembles, lp_alphas)` (line 125): the trial triples
actually iterated. -/
def zippedTrials (bs es : List ℤ) (ls : List ℚ) : List (ℤ × ℤ × ℚ) :=
  bs.zip (es.zip ls)

/-! ### Grouping by ensemble size (pipeline.py lines 123-126) -/

/-- One step of `grouped_ens[ens].append((b, l))` on an insertion-ordered
dict of lists (`defaultdict(list)`). -/
def addToGroup (gs : List (ℤ × List (ℤ × ℚ))) (e : ℤ) (p : ℤ × ℚ) :
    List (ℤ × List (ℤ × ℚ)) :=
  match gs with
  | [] => [(e, [p])]
  | (k, ps) :: rest =>
      if k = e then (k, ps ++ [p]) :: rest else (k, ps) :: addToGroup rest e p

/-- Lines 124-126: group the zipped trials by ensemble size; the result
lists, per ensemble size in first-occurrence order, the `(beam, alpha)`
pairs to evaluate against the one decoder built for that size. -/
def groupByEns (ts : List (ℤ × ℤ × ℚ)) : List (ℤ × List (ℤ × ℚ)) :=
  ts.foldl (fun gs t => addToGroup gs t.2.1 (t.1, t.2.2)) []

/-! ### The evaluation loop and `finally` persistence (pipeline.py lines 127-144)

`evalTrial ⟨b, ens, a⟩` models `self.decode_eval_file(...)` for those decode
arguments: a score, or the exception it raises. -/

/-- The inner loop over one group (lines 130-138): evaluate each
`(beam, alpha)` pair against the group decoder, recording each score in
the memo; an exception stops the loop and is reported. -/
def evalGroup (ev : TrialKey → Except String ℚ) (ens : ℤ) :
    List (ℤ × ℚ) → Memory → Memory × Option String
  | [], m => (m, none)
  | (b, a) :: rest, m =>
      match ev ⟨b, ens, a⟩ with
      | Except.ok score => evalGroup ev ens rest (insertMem m ⟨b, ens, a⟩ score)
      | Except.error e => (m, some e)

/-- The outer loop over ensemble groups (lines 128-138): one decoder per
group, then the group evaluations; an exception aborts the remaining
groups.  Returns the memo at loop exit and the escaping exception. -/
def evalLoop (ev : TrialKey → Except String ℚ) :
    Memory → List (ℤ × List (ℤ × ℚ)) → Memory × Option String
  | m, [] => (m, none)
  | m, (ens, args) :: rest =>
      match evalGroup ev ens args m with
      | (m1, none) => evalLoop ev m1 rest
      | (m1, some e) => (m1, some e)

/-- The try-finally body of `tune_decoder_params`
(lines 127-144): run the evaluation loop from the loaded memo, on normal
completion pick `best_params` from the memo, and in BOTH cases persist the
memo at loop exit (the `finally` block).  First component: the returned
best entry or the re-raised exception; second component: the memo that
`scores.json` is written from. -/
def tune_core (ev : TrialKey → Except String ℚ)
    (groups : List (ℤ × List (ℤ × ℚ))) (m0 : Memory) :
    Except String (TrialKey × ℚ) × Memory :=
  match evalLoop ev m0 groups with
  | (m, none) =>
      (match selectBest m with
       | some best => Except.ok best
       | none => Except.error "IndexError", m)
  | (m, some e) => (Except.error e, m)

/-- The trials that complete successfully in one group before its first
failure (description of the loop used to state persistence). -/
def completedGroup (ev : TrialKey → Except String ℚ) (ens : ℤ) :
    List (ℤ × ℚ) → List (TrialKey × ℚ) × Option String
  | [] => ([], none)
  | (b, a) :: rest =>
      match ev ⟨b, ens, a⟩ with
      | Except.ok score =>
          let r := completedGroup ev ens rest
          ((⟨b, ens, a⟩, score) :: r.1, r.2)
      | Except.error e => ([], some e)

/-- All trials completed before the first failure of the whole loop (all
trials when no evaluation fails). -/
def completedTrials (ev : TrialKey → Except String ℚ) :
    List (ℤ × List (ℤ × ℚ)) → List (TrialKey × ℚ)
  | [] => []
  | (ens, args) :: rest =>
      match completedGroup ev ens args with
      | (done, none) => done ++ completedTrials ev rest
      | (done, some _) => done

/-! ### Test-suite runner (pipeline.py lines 195-212)

`decode_eval name src ref` models the whole per-case body: resolving and
linking the source/reference paths, decoding and scoring — a score, or
whatever exception any of those steps raises. -/

/-- Per-case outcome artifacts: the `{name}.out.tsv`-derived score file,
or the `{name}.err` error file. -/
inductive TestArtifact where
  | score : String → ℚ → TestArtifact
  | errFile : String → String → TestArtifact
deriving DecidableEq, Repr

/-- The suite loop (lines 196-212): each case is processed inside
`try ... except Exception`; success records the case score, an exception
is caught and written to the case error file, and iteration continues. -/
def run_tests (decode_eval : String → String → String → Except String ℚ)
    (suit : List (String × String × String)) : List TestArtifact :=
  suit.map fun c =>
    match decode_eval c.1 c.2.1 c.2.2 with
    | Except.ok s => TestArtifact.score c.1 s
    | Except.error e => TestArtifact.errFile c.1 e

/-! ### `src/rtg/module/schedule.py` -/

/-- The Noam schedule parameters (`@dataclass class Noam`); the Python
ints `warmup`, `constant`, `model_dim` are embedded into `ℝ` since the
rate formula is float arithmetic, idealised as real arithmetic. -/
structure Noam where
  warmup : ℝ
  constant : ℝ
  model_dim : ℝ

/-- The formula of `Noam.rate` (schedule.py lines 33-35):
`constant * model_dim ** -0.5 * min(step ** -0.5, step * warmup ** -1.5)`. -/
noncomputable def Noam.rate (self : Noam) (step : ℝ) : ℝ :=
  self.constant * self.model_dim ^ (-0.5 : ℝ) *
    min (step ^ (-0.5 : ℝ)) (step * self.warmup ^ (-1.5 : ℝ))

/-- State of a `ScheduledOptimizer` (schedule.py lines 49-96).  The
schedule is abstracted to its `rate` function (rates as exact rationals);
`param_groups` holds the learning rate stored in each parameter group of
the wrapped optimizer; `_step` and `_rate` are the fields set in
`__post_init__` and updated by `step()`.  The actual tensor update
(`self.optimizer.step()`) is external and touches none of this state. -/
structure ScheduledOptimizer where
  schedule : Option (ℤ → ℚ)
  param_groups : List ℚ
  _step : ℤ
  _rate : ℚ

/-- Construction plus `__post_init__` (lines 55-59):
`self._step = self.start_step; self._rate = -1`. -/
def ScheduledOptimizer.init (start_step : ℤ) (schedule : Option (ℤ → ℚ))
    (param_groups : List ℚ) : ScheduledOptimizer :=
  ⟨schedule, param_groups, start_step, -1⟩

/-- The update `ScheduledOptimizer.step` (lines 61-81).  Here `world_size` is
`dtorch.world_size`, the process-wide worker count, passed explicitly.
With a schedule: increment `_step`, compute the schedule rate at the new
step, divide (never multiply) by `world_size` when it exceeds 1, store the
result in every parameter group and in `_rate`.  Without a schedule: read
`_rate` back from the first parameter group, if any. -/
def ScheduledOptimizer.step (world_size : ℤ) (s : ScheduledOptimizer) :
    ScheduledOptimizer :=
  let step1 := s._step + 1
  match s.schedule with
  | some sched =>
      let rate0 := sched step1
      let rate := if 1 < world_size then rate0 / (world_size : ℚ) else rate0
      { s with _step := step1,
               param_groups := s.param_groups.map fun _ => rate,
               _rate := rate }
  | none =>
      { s with _step := step1,
               _rate := match s.param_groups with
                        | [] => s._rate
                        | lr :: _ => lr }

/-- The `curr_step` accessor (lines 87-89). -/
def ScheduledOptimizer.curr_step (s : ScheduledOptimizer) : ℤ := s._step

/-- The `curr_lr` accessor (lines 91-93). -/
def ScheduledOptimizer.curr_lr (s : ScheduledOptimizer) : ℚ := s._rate

/-! ## Theorems -/

/-! ### Shape of the Noam rate curve -/

/-- Rewriting `x ** -0.5` in sqrt form, for positive `x`. -/
theorem rpow_neg_half_eq {x : ℝ} (hx : 0 < x) :
    x ^ (-0.5 : ℝ) = (Real.sqrt x)⁻¹ := by
  rw [show (-0.5 : ℝ) = -((1 : ℝ) / 2) by norm_num, Real.rpow_neg hx.le,
    ← Real.sqrt_eq_rpow]

/-- Rewriting `x ** -1.5` in sqrt form, for positive `x`. -/
theorem rpow_neg_three_halves_eq {x : ℝ} (hx : 0 < x) :
    x ^ (-1.5 : ℝ) = (x * Real.sqrt x)⁻¹ := by
  rw [show (-1.5 : ℝ) = -(1 + (1 : ℝ) / 2) by norm_num, Real.rpow_neg hx.le,
    Real.rpow_add hx, Real.rpow_one, ← Real.sqrt_eq_rpow]

/-- The map `x ↦ x * sqrt x` is strictly increasing on the nonnegative
reals. -/
theorem mul_sqrt_lt_mul_sqrt {a b : ℝ} (ha : 0 ≤ a) (hab : a < b) :
    a * Real.sqrt a < b * Real.sqrt b := by
  have hb : 0 < b := lt_of_le_of_lt ha hab
  rcases eq_or_lt_of_le ha with rfl | ha'
  · simpa using mul_pos hb (Real.sqrt_pos.mpr hb)
  · exact mul_lt_mul'' hab (Real.sqrt_lt_sqrt ha'.le hab) ha'.le
      (Real.sqrt_nonneg a)

/-- Below the warmup point the linear branch of the min is the smaller. -/
theorem linear_branch_le {s w : ℝ} (hs : 0 < s) (hw : 0 < w) (hsw : s ≤ w) :
    s * (w * Real.sqrt w)⁻¹ ≤ (Real.sqrt s)⁻¹ := by
  have hws : 0 < w * Real.sqrt w := mul_pos hw (Real.sqrt_pos.mpr hw)
  have hss : 0 < Real.sqrt s := Real.sqrt_pos.mpr hs
  rw [← div_eq_mul_inv, inv_eq_one_div, div_le_div_iff hws hss, one_mul]
  exact mul_le_mul hsw (Real.sqrt_le_sqrt hsw) (Real.sqrt_nonneg s) hw.le

/-- Above the warmup point the inverse-sqrt branch of the min is the
smaller. -/
theorem decay_branch_le {s w : ℝ} (hw : 0 < w) (hws : w ≤ s) :
    (Real.sqrt s)⁻¹ ≤ s * (w * Real.sqrt w)⁻¹ := by
  have hs : 0 < s := lt_of_lt_of_le hw hws
  have hww : 0 < w * Real.sqrt w := mul_pos hw (Real.sqrt_pos.mpr hw)
  have hss : 0 < Real.sqrt s := Real.sqrt_pos.mpr hs
  rw [← div_eq_mul_inv, inv_eq_one_div, div_le_div_iff hss hww, one_mul]
  exact mul_le_mul hws (Real.sqrt_le_sqrt hws) (Real.sqrt_nonneg w) hs.le

/-- Closed form of `Noam.rate` below warmup: the linear ramp. -/
theorem noam_rate_eq_linear (n : Noam) (hd : 0 < n.model_dim)
    (hw : 0 < n.warmup) {s : ℝ} (hs : 0 < s) (hsw : s ≤ n.warmup) :
    n.rate s = n.constant * (Real.sqrt n.model_dim)⁻¹ *
      (s * (n.warmup * Real.sqrt n.warmup)⁻¹) := by
  unfold Noam.rate
  rw [rpow_neg_half_eq hd, rpow_neg_half_eq hs, rpow_neg_three_halves_eq hw,
    min_eq_right (linear_branch_le hs hw hsw)]

/-- Closed form of `Noam.rate` above warmup: the inverse-sqrt decay. -/
theorem noam_rate_eq_decay (n : Noam) (hd : 0 < n.model_dim)
    (hw : 0 < n.warmup) {s : ℝ} (hws : n.warmup ≤ s) :
    n.rate s = n.constant * (Real.sqrt n.model_dim)⁻¹ * (Real.sqrt s)⁻¹ := by
  have hs : 0 < s := lt_of_lt_of_le hw hws
  unfold Noam.rate
  rw [rpow_neg_half_eq hd, rpow_neg_half_eq hs, rpow_neg_three_halves_eq hw,
    min_eq_left (decay_branch_le hw hws)]

/-- The rate is strictly increasing on `(0, warmup]`. -/
theorem noam_rate_strict_mono (n : Noam) (hc : 0 < n.constant)
    (hd : 0 < n.model_dim) (hw : 0 < n.warmup) {s1 s2 : ℝ}
    (h1 : 0 < s1) (h12 : s1 < s2) (h2w : s2 ≤ n.warmup) :
    n.rate s1 < n.rate s2 := by
  have hC : 0 < n.constant * (Real.sqrt n.model_dim)⁻¹ :=
    mul_pos hc (inv_pos.mpr (Real.sqrt_pos.mpr hd))
  have hk : 0 < (n.warmup * Real.sqrt n.warmup)⁻¹ :=
    inv_pos.mpr (mul_pos hw (Real.sqrt_pos.mpr hw))
  rw [noam_rate_eq_linear n hd hw h1 (le_of_lt (lt_of_lt_of_le h12 h2w)),
    noam_rate_eq_linear n hd hw (h1.trans h12) h2w]
  exact mul_lt_mul_of_pos_left (mul_lt_mul_of_pos_right h12 hk) hC

/-- The rate is strictly decreasing on `[warmup, ∞)`. -/
theorem noam_rate_strict_anti (n : Noam) (hc : 0 < n.constant)
    (hd : 0 < n.model_dim) (hw : 0 < n.warmup) {s1 s2 : ℝ}
    (hw1 : n.warmup ≤ s1) (h12 : s1 < s2) :
    n.rate s2 < n.rate s1 := by
  have hC : 0 < n.constant * (Real.sqrt n.model_dim)⁻¹ :=
    mul_pos hc (inv_pos.mpr (Real.sqrt_pos.mpr hd))
  have hs1 : 0 < s1 := lt_of_lt_of_le hw hw1
  rw [noam_rate_eq_decay n hd hw hw1,
    noam_rate_eq_decay n hd hw (hw1.trans h12.le)]
  have hsq : Real.sqrt s1 < Real.sqrt s2 := Real.sqrt_lt_sqrt hs1.le h12
  exact mul_lt_mul_of_pos_left
    (inv_lt_inv_of_lt (Real.sqrt_pos.mpr hs1) hsq) hC

/-- C5: for positive parameters, the Noam rate at integer steps `≥ 1` is
strictly increasing below warmup, strictly decreasing above warmup, and
attains its peak exactly at `step = warmup`. -/
theorem noam_rate_peaks_at_warmup (n : Noam) (hc : 0 < n.constant)
    (hd : 0 < n.model_dim) (hw : 1 ≤ n.warmup) :
    (∀ s1 s2 : ℕ, 1 ≤ s1 → s1 < s2 → (s2 : ℝ) ≤ n.warmup →
      n.rate s1 < n.rate s2) ∧
    (∀ s1 s2 : ℕ, n.warmup ≤ (s1 : ℝ) → s1 < s2 → n.rate s2 < n.rate s1) ∧
    (∀ s : ℕ, 1 ≤ s → (s : ℝ) ≠ n.warmup → n.rate s < n.rate n.warmup) := by
  have hw0 : (0 : ℝ) < n.warmup := lt_of_lt_of_le one_pos hw
  refine ⟨?_, ?_, ?_⟩
  · intro s1 s2 h1 h12 h2w
    have hs1 : (0 : ℝ) < s1 := by exact_mod_cast Nat.lt_of_lt_of_le Nat.zero_lt_one h1
    exact noam_rate_strict_mono n hc hd hw0 hs1 (by exact_mod_cast h12) h2w
  · intro s1 s2 hw1 h12
    exact noam_rate_strict_anti n hc hd hw0 hw1 (by exact_mod_cast h12)
  · intro s hs hne
    have hs0 : (0 : ℝ) < s := by exact_mod_cast Nat.lt_of_lt_of_le Nat.zero_lt_one hs
    rcases lt_or_gt_of_ne hne with h | h
    · exact noam_rate_strict_mono n hc hd hw0 hs0 h le_rfl
    · exact noam_rate_strict_anti n hc hd hw0 le_rfl h

/-- The known-good transformer default (schedule.py lines 98-103):
`Noam(warmup=4000, constant=2, model_dim=512)`. -/
def egNoam : Noam := ⟨4000, 2, 512⟩

theorem noam_rate_peaks_witness :
    (0 : ℝ) < egNoam.constant ∧ (0 : ℝ) < egNoam.model_dim ∧
    (1 : ℝ) ≤ egNoam.warmup ∧
    ((∀ s1 s2 : ℕ, 1 ≤ s1 → s1 < s2 → (s2 : ℝ) ≤ egNoam.warmup →
        egNoam.rate s1 < egNoam.rate s2) ∧
      (∀ s1 s2 : ℕ, egNoam.warmup ≤ (s1 : ℝ) → s1 < s2 →
        egNoam.rate s2 < egNoam.rate s1) ∧
      (∀ s : ℕ, 1 ≤ s → (s : ℝ) ≠ egNoam.warmup →
        egNoam.rate s < egNoam.rate egNoam.warmup)) ∧
    egNoam.rate (100 : ℕ) < egNoam.rate egNoam.warmup := by
  have h := noam_rate_peaks_at_warmup egNoam (by norm_num [egNoam])
    (by norm_num [egNoam]) (by norm_num [egNoam])
  exact ⟨by norm_num [egNoam], by norm_num [egNoam], by norm_num [egNoam], h,
    h.2.2 100 (by norm_num) (by norm_num [egNoam])⟩

/-- C1: the claim says `tune_decoder_params` returns the trial whose
recorded score is maximal.  The code instead takes the entry with the
maximal KEY tuple (`sorted(memory.items(), key=lambda x: x[0],
reverse=True)[0]`): on the memo holding score 10 at key `(1, 1, 0.0)` and
score 5 at key `(2, 1, 0.0)`, selection returns the key-maximal entry
`((2, 1, 0.0), 5)` even though its score 5 is below the score 10 of the
other recorded trial. -/
theorem select_best_by_key_not_score :
    selectBest [(⟨1, 1, 0⟩, 10), (⟨2, 1, 0⟩, 5)] = some (⟨2, 1, 0⟩, 5) ∧
    (⟨1, 1, 0⟩, (10 : ℚ)) ∈ ([(⟨1, 1, 0⟩, 10), (⟨2, 1, 0⟩, 5)] : Memory) ∧
    (5 : ℚ) < 10 := by
  refine ⟨by decide, ?_, by decide⟩
  exact List.mem_cons_self _ _

/-- C2: the claim says a persisted scores file loads back to the stored
mapping.  The loading code runs `{eval(k): v for k, v in data.item()}`,
and `data.item()` (for `items`) raises `AttributeError` on the dict, so
loading a persisted file never succeeds; only the no-file branch (empty
memo) works. -/
theorem load_scores_always_raises :
    loadMemory (some (persistMemory [(⟨4, 2, 0⟩, 20)])) =
      Except.error (PyError.attributeError "dict object has no attribute item") ∧
    loadMemory none = Except.ok [] :=
  ⟨rfl, rfl⟩

/-- C3: every test case produces exactly one artifact — the score on
success or the `.err` file holding the caught exception text — and the
suite never aborts early: the artifact list is as long as the suite, each
case contributes its own artifact, and in a two-case suite whose first
case raises and whose second succeeds, the run yields the error artifact
for the first AND the score artifact for the second. -/
theorem run_tests_isolation (de : String → String → String → Except String ℚ) :
    (∀ suit, (run_tests de suit).length = suit.length) ∧
    (∀ suit, ∀ c ∈ suit,
        (match de c.1 c.2.1 c.2.2 with
         | Except.ok s => TestArtifact.score c.1 s
         | Except.error e => TestArtifact.errFile c.1 e) ∈ run_tests de suit) ∧
    (∀ nA sA rA nB sB rB eA scB,
        de nA sA rA = Except.error eA → de nB sB rB = Except.ok scB →
        run_tests de [(nA, sA, rA), (nB, sB, rB)] =
          [TestArtifact.errFile nA eA, TestArtifact.score nB scB]) := by
  refine ⟨fun suit => List.length_map _ _, fun suit c hc => ?_, ?_⟩
  · exact List.mem_map_of_mem _ hc
  · intro nA sA rA nB sB rB eA scB hA hB
    simp only [run_tests, List.map_cons, List.map_nil, hA, hB]

/-- A decode-and-score oracle for which case `A` raises
`FileNotFoundError` (its source file does not exist) and every other
case scores 30. -/
def egDecodeEval (name _src _ref : String) : Except String ℚ :=
  if name = "A" then Except.error "FileNotFoundError" else Except.ok 30

theorem run_tests_isolation_witness :
    egDecodeEval "A" "missing.txt" "a.ref" = Except.error "FileNotFoundError" ∧
    egDecodeEval "B" "b.src" "b.ref" = Except.ok 30 ∧
    run_tests egDecodeEval [("A", "missing.txt", "a.ref"), ("B", "b.src", "b.ref")] =
      [TestArtifact.errFile "A" "FileNotFoundError", TestArtifact.score "B" 30] :=
  ⟨rfl, rfl,
    (run_tests_isolation egDecodeEval).2.2 "A" "missing.txt" "a.ref" "B" "b.src" "b.ref"
      "FileNotFoundError" 30 rfl rfl⟩

/-- C9: `step()` adds exactly 1 to the step counter on every call — with
or without an attached schedule — and construction initialises the
counter from the configured start value. -/
theorem step_increments_counter :
    (∀ (start_step : ℤ) (sched : Option (ℤ → ℚ)) (pgs : List ℚ),
        (ScheduledOptimizer.init start_step sched pgs).curr_step = start_step) ∧
    (∀ (s : ScheduledOptimizer) (world_size : ℤ),
        (ScheduledOptimizer.step world_size s).curr_step = s.curr_step + 1) := by
  refine ⟨fun _ _ _ => rfl, fun s w => ?_⟩
  obtain ⟨sched, pgs, st, r⟩ := s
  cases sched <;> rfl

/-- C4: with an attached schedule and `world_size > 1`, one `step()`
computes the schedule rate at the incremented counter and divides it by
`world_size`; that quotient — never a product — is stored as the current
rate and written to every parameter group. -/
theorem step_divides_rate_by_world_size (s : ScheduledOptimizer) (f : ℤ → ℚ)
    (w : ℤ) (hs : s.schedule = some f) (hw : 1 < w) :
    (ScheduledOptimizer.step w s).curr_lr = f (s.curr_step + 1) / (w : ℚ) ∧
    ∀ lr ∈ (ScheduledOptimizer.step w s).param_groups,
      lr = f (s.curr_step + 1) / (w : ℚ) := by
  obtain ⟨sched, pgs, st, r⟩ := s
  simp only [ScheduledOptimizer.schedule] at hs
  subst hs
  constructor
  · simp [ScheduledOptimizer.step, ScheduledOptimizer.curr_lr,
      ScheduledOptimizer.curr_step, hw]
  · intro lr hlr
    simp only [ScheduledOptimizer.step, ScheduledOptimizer.param_groups,
      List.mem_map] at hlr
    obtain ⟨_, _, heq⟩ := hlr
    simp only [ScheduledOptimizer.curr_step, ← heq, if_pos hw]

/-- Keys of the memo after a dict update: unchanged when the key was
present, extended by the key otherwise. -/
theorem memKeys_insertMem (m : Memory) (k : TrialKey) (v : ℚ) :
    memKeys (insertMem m k v) =
      if k ∈ memKeys m then memKeys m else memKeys m ++ [k] := by
  induction m with
  | nil => simp [insertMem, memKeys]
  | cons kv rest ih =>
      obtain ⟨k0, v0⟩ := kv
      by_cases hk : k0 = k
      · subst hk
        simp [insertMem, memKeys]
      · have ih' : List.map Prod.fst (insertMem rest k v) =
            if k ∈ List.map Prod.fst rest then List.map Prod.fst rest
            else List.map Prod.fst rest ++ [k] := by
          simpa [memKeys] using ih
        simp only [insertMem, if_neg hk, memKeys, List.map_cons]
        by_cases hmem : k ∈ List.map Prod.fst rest
        · rw [if_pos (by simp [hmem]), ih', if_pos hmem]
        · rw [if_neg (by simp [List.mem_cons, hmem, Ne.symm hk]), ih',
            if_neg hmem]
          rfl

/-- A dict update keeps every existing key. -/
theorem mem_memKeys_insertMem (m : Memory) (k k0 : TrialKey) (v : ℚ)
    (h : k0 ∈ memKeys m) : k0 ∈ memKeys (insertMem m k v) := by
  rw [memKeys_insertMem]
  by_cases hk : k ∈ memKeys m
  · rwa [if_pos hk]
  · rw [if_neg hk]
    exact List.mem_append_left _ h

/-- A dict update makes its own key present. -/
theorem self_mem_memKeys_insertMem (m : Memory) (k : TrialKey) (v : ℚ) :
    k ∈ memKeys (insertMem m k v) := by
  rw [memKeys_insertMem]
  by_cases hk : k ∈ memKeys m
  · rwa [if_pos hk]
  · rw [if_neg hk]
    exact List.mem_append_right _ (List.mem_singleton_self _)

/-- Keys survive a whole fold of dict updates. -/
theorem mem_memKeys_foldl (l : List (TrialKey × ℚ)) :
    ∀ (m : Memory) (k : TrialKey), k ∈ memKeys m →
      k ∈ memKeys (l.foldl (fun m kv => insertMem m kv.1 kv.2) m) := by
  induction l with
  | nil => exact fun m k h => h
  | cons kv rest ih =>
      intro m k h
      exact ih _ k (mem_memKeys_insertMem m kv.1 k kv.2 h)

/-- Every key of the folded-in list is present after the fold. -/
theorem mem_foldl_insertMem (l : List (TrialKey × ℚ)) :
    ∀ (m : Memory), ∀ kv ∈ l,
      kv.1 ∈ memKeys (l.foldl (fun m kv => insertMem m kv.1 kv.2) m) := by
  induction l with
  | nil => intro m kv h; simp at h
  | cons kv0 rest ih =>
      intro m kv h
      rcases List.mem_cons.mp h with rfl | h'
      · exact mem_memKeys_foldl rest _ kv.1
          (self_mem_memKeys_insertMem m kv.1 kv.2)
      · exact ih _ kv h'

/-- The group loop is the fold of its completed trials into the memo,
paired with its escaping exception. -/
theorem evalGroup_eq_completed (ev : TrialKey → Except String ℚ) (ens : ℤ)
    (args : List (ℤ × ℚ)) :
    ∀ m : Memory,
      evalGroup ev ens args m =
        ((completedGroup ev ens args).1.foldl
          (fun m kv => insertMem m kv.1 kv.2) m,
         (completedGroup ev ens args).2) := by
  induction args with
  | nil => intro m; rfl
  | cons ba rest ih =>
      intro m
      obtain ⟨b, a⟩ := ba
      cases hev : ev ⟨b, ens, a⟩ with
      | ok score => simp [evalGroup, completedGroup, hev, ih]
      | error e => simp [evalGroup, completedGroup, hev]

/-- The memo at exit of the whole evaluation loop is the starting memo
with exactly the completed trials folded in — also when a trial fails. -/
theorem evalLoop_fst_eq_completed (ev : TrialKey → Except String ℚ)
    (groups : List (ℤ × List (ℤ × ℚ))) :
    ∀ m : Memory,
      (evalLoop ev m groups).1 =
        (completedTrials ev groups).foldl
          (fun m kv => insertMem m kv.1 kv.2) m := by
  induction groups with
  | nil => intro m; rfl
  | cons g rest ih =>
      intro m
      obtain ⟨ens, args⟩ := g
      have hg := evalGroup_eq_completed ev ens args m
      cases hc : (completedGroup ev ens args).2 with
      | none =>
          simp only [evalLoop, hg, hc]
          simp only [completedTrials, hc]
          cases hcg : completedGroup ev ens args with
          | mk done err =>
              rw [hcg] at hc
              subst hc
              simp [List.foldl_append, ih]
      | some e =>
          simp only [evalLoop, hg, hc]
          simp only [completedTrials]
          cases hcg : completedGroup ev ens args with
          | mk done err =>
              rw [hcg] at hc
              subst hc
              simp

/-- C6: whatever the evaluation loop does — every trial succeeding, or an
evaluation raising partway — the memo the `finally` block persists is the
loaded memo with exactly the completed trials folded in, the raised
exception (if any) is re-raised unchanged, and every trial completed
before the failure has its key present in the persisted memo, so a
retried run resumes from those trials. -/
theorem tune_persists_completed (ev : TrialKey → Except String ℚ)
    (groups : List (ℤ × List (ℤ × ℚ))) (m0 : Memory) :
    (tune_core ev groups m0).2 =
      (completedTrials ev groups).foldl (fun m kv => insertMem m kv.1 kv.2) m0 ∧
    (∀ e, (evalLoop ev m0 groups).2 = some e →
      (tune_core ev groups m0).1 = Except.error e) ∧
    (∀ kv ∈ completedTrials ev groups,
      kv.1 ∈ memKeys (tune_core ev groups m0).2) := by
  have hfst := evalLoop_fst_eq_completed ev groups m0
  have h2snd : (tune_core ev groups m0).2 = (evalLoop ev m0 groups).1 := by
    unfold tune_core
    cases h : evalLoop ev m0 groups with
    | mk m err => cases err <;> simp
  refine ⟨h2snd.trans hfst, ?_, ?_⟩
  · intro e he
    unfold tune_core
    cases h : evalLoop ev m0 groups with
    | mk m err =>
        rw [h] at he
        simp only at he
        subst he
        simp
  · intro kv hkv
    rw [h2snd.trans hfst]
    exact mem_foldl_insertMem (completedTrials ev groups) m0 kv hkv

/-- Evaluation oracle for the C6 witness: beam size 3 raises, everything
else scores 7. -/
def egEvalTrial (k : TrialKey) : Except String ℚ :=
  if k.beam = 3 then Except.error "CUDA error: out of memory" else Except.ok 7

/-- One ensemble group of three trials; the second one raises, so the
third is never evaluated. -/
def egGroups : List (ℤ × List (ℤ × ℚ)) := [(2, [(1, 0), (3, 0), (4, 0)])]

theorem tune_persists_completed_witness :
    ((⟨1, 2, 0⟩, (7 : ℚ)) ∈ completedTrials egEvalTrial egGroups) ∧
    TrialKey.mk 1 2 0 ∈ memKeys (tune_core egEvalTrial egGroups []).2 :=
  ⟨by decide,
    (tune_persists_completed egEvalTrial egGroups []).2.2 (⟨1, 2, 0⟩, 7)
      (by decide)⟩

/-- Keys after one `addToGroup` step: unchanged when the ensemble size
already has a group, extended at the end by the new size otherwise. -/
theorem addToGroup_keys (gs : List (ℤ × List (ℤ × ℚ))) (e : ℤ) (p : ℤ × ℚ) :
    (addToGroup gs e p).map Prod.fst =
      if e ∈ gs.map Prod.fst then gs.map Prod.fst
      else gs.map Prod.fst ++ [e] := by
  induction gs with
  | nil => simp [addToGroup]
  | cons g rest ih =>
      obtain ⟨k, ps⟩ := g
      by_cases hk : k = e
      · subst hk
        simp [addToGroup]
      · by_cases he : e ∈ rest.map Prod.fst <;>
          simp [addToGroup, hk, ih, he, Ne.symm hk]

/-- `addToGroup` puts the new pair into the group of its ensemble size. -/
theorem addToGroup_mem_self (gs : List (ℤ × List (ℤ × ℚ))) (e : ℤ) (p : ℤ × ℚ) :
    ∃ ps, (e, ps) ∈ addToGroup gs e p ∧ p ∈ ps := by
  induction gs with
  | nil => exact ⟨[p], by simp [addToGroup], by simp⟩
  | cons g rest ih =>
      obtain ⟨k, ps⟩ := g
      by_cases hk : k = e
      · subst hk
        exact ⟨ps ++ [p], by simp [addToGroup], by simp⟩
      · obtain ⟨ps', h1, h2⟩ := ih
        exact ⟨ps', by simp [addToGroup, hk, h1], h2⟩

/-- `addToGroup` never removes a pair from an existing group. -/
theorem addToGroup_mem_mono (gs : List (ℤ × List (ℤ × ℚ))) (e : ℤ) (p : ℤ × ℚ)
    {k : ℤ} {ps : List (ℤ × ℚ)} (h : (k, ps) ∈ gs) :
    ∃ ps', (k, ps') ∈ addToGroup gs e p ∧ ∀ x ∈ ps, x ∈ ps' := by
  induction gs with
  | nil => simp at h
  | cons g rest ih =>
      obtain ⟨k0, ps0⟩ := g
      by_cases hk : k0 = e
      · subst hk
        rcases List.mem_cons.mp h with h | h
        · obtain ⟨rfl, rfl⟩ := Prod.mk.injEq .. ▸ h
          exact ⟨ps ++ [p], by simp [addToGroup], fun x hx => by simp [hx]⟩
        · exact ⟨ps, by simp [addToGroup, List.mem_cons, h], fun x hx => hx⟩
      · rcases List.mem_cons.mp h with h | h
        · obtain ⟨rfl, rfl⟩ := Prod.mk.injEq .. ▸ h
          exact ⟨ps, by simp [addToGroup, hk], fun x hx => hx⟩
        · obtain ⟨ps', h1, h2⟩ := ih h
          exact ⟨ps', by simp [addToGroup, hk, h1], h2⟩

/-- Invariant of the grouping fold: the group keys stay duplicate-free,
and their set is the starting keys joined with the ensemble sizes of the
processed trials. -/
theorem foldl_group_keys (ts : List (ℤ × ℤ × ℚ)) :
    ∀ gs : List (ℤ × List (ℤ × ℚ)),
      ((gs.map Prod.fst).Nodup →
        ((ts.foldl (fun gs t => addToGroup gs t.2.1 (t.1, t.2.2)) gs).map
          Prod.fst).Nodup) ∧
      ((ts.foldl (fun gs t => addToGroup gs t.2.1 (t.1, t.2.2)) gs).map
          Prod.fst).toFinset =
        (gs.map Prod.fst).toFinset ∪ (ts.map fun t => t.2.1).toFinset := by
  induction ts with
  | nil => intro gs; simp
  | cons t ts ih =>
      intro gs
      have hstep := addToGroup_keys gs t.2.1 (t.1, t.2.2)
      rw [List.foldl_cons]
      constructor
      · intro hnd
        apply (ih _).1
        rw [hstep]
        by_cases he : t.2.1 ∈ gs.map Prod.fst
        · rw [if_pos he]; exact hnd
        · rw [if_neg he]
          simp [List.nodup_append, hnd, he]
      · rw [(ih _).2, hstep]
        by_cases he : t.2.1 ∈ gs.map Prod.fst
        · rw [if_pos he]
          ext x
          simp only [Finset.mem_union, List.mem_toFinset, List.map_cons,
            List.mem_cons]
          constructor
          · rintro (hx | hx)
            · exact Or.inl hx
            · exact Or.inr (Or.inr hx)
          · rintro (hx | hx | hx)
            · exact Or.inl hx
            · exact Or.inl (hx ▸ he)
            · exact Or.inr hx
        · rw [if_neg he]
          ext x
          simp only [Finset.mem_union, List.mem_toFinset, List.map_cons,
            List.mem_cons, List.mem_append, List.mem_singleton]
          tauto

/-- Pairs already grouped survive the rest of the grouping fold. -/
theorem foldl_group_mem_mono (ts : List (ℤ × ℤ × ℚ)) :
    ∀ (gs : List (ℤ × List (ℤ × ℚ))) {k : ℤ} {ps : List (ℤ × ℚ)},
      (k, ps) ∈ gs →
      ∃ ps', (k, ps') ∈ ts.foldl (fun gs t => addToGroup gs t.2.1 (t.1, t.2.2)) gs ∧
        ∀ x ∈ ps, x ∈ ps' := by
  induction ts with
  | nil =>
      intro gs k ps h
      exact ⟨ps, h, fun x hx => hx⟩
  | cons t ts ih =>
      intro gs k ps h
      obtain ⟨ps1, h1, h2⟩ := addToGroup_mem_mono gs t.2.1 (t.1, t.2.2) h
      obtain ⟨ps2, h3, h4⟩ := ih _ h1
      exact ⟨ps2, h3, fun x hx => h4 x (h2 x hx)⟩

/-- Every processed trial ends up in the group of its ensemble size. -/
theorem foldl_group_mem (ts : List (ℤ × ℤ × ℚ)) :
    ∀ gs : List (ℤ × List (ℤ × ℚ)), ∀ t ∈ ts,
      ∃ ps, (t.2.1, ps) ∈ ts.foldl (fun gs t => addToGroup gs t.2.1 (t.1, t.2.2)) gs ∧
        (t.1, t.2.2) ∈ ps := by
  induction ts with
  | nil => intro gs t ht; simp at ht
  | cons t0 ts ih =>
      intro gs t ht
      rcases List.mem_cons.mp ht with rfl | ht'
      · obtain ⟨ps, h1, h2⟩ := addToGroup_mem_self gs t.2.1 (t.1, t.2.2)
        obtain ⟨ps', h3, h4⟩ := foldl_group_mem_mono ts _ h1
        exact ⟨ps', h3, h4 _ h2⟩
      · exact ih _ t ht'

/-- C8: the grouped loop builds exactly one decoder (evaluation unit) per
group, and the number of groups equals the number of DISTINCT ensemble
sizes among the processed trials — never the number of trials; moreover
the group keys are duplicate-free (a single unit per size) and every
every `(beam, alpha)` pair lands in the group of the ensemble size of its trial. -/
theorem eval_units_eq_distinct_ensembles (ts : List (ℤ × ℤ × ℚ)) :
    (groupByEns ts).length = (ts.map fun t => t.2.1).toFinset.card ∧
    ((groupByEns ts).map Prod.fst).Nodup ∧
    ∀ t ∈ ts, ∃ ps, (t.2.1, ps) ∈ groupByEns ts ∧ (t.1, t.2.2) ∈ ps := by
  have hnd : ((groupByEns ts).map Prod.fst).Nodup :=
    (foldl_group_keys ts []).1 (by simp)
  have hset : ((groupByEns ts).map Prod.fst).toFinset =
      (ts.map fun t => t.2.1).toFinset := by
    have h := (foldl_group_keys ts []).2
    simpa [groupByEns] using h
  refine ⟨?_, hnd, fun t ht => foldl_group_mem ts [] t ht⟩
  calc (groupByEns ts).length
      = ((groupByEns ts).map Prod.fst).length := (List.length_map _ _).symm
    _ = ((groupByEns ts).map Prod.fst).toFinset.card :=
        (List.toFinset_card_of_nodup hnd).symm
    _ = (ts.map fun t => t.2.1).toFinset.card := by rw [hset]

/-- Two trials sharing ensemble size 2: one group, hence one decoder. -/
def egTrials : List (ℤ × ℤ × ℚ) := [(1, 2, 0), (3, 2, 0)]

theorem eval_units_witness :
    ((1 : ℤ), (2 : ℤ), (0 : ℚ)) ∈ egTrials ∧
    (∃ ps, ((2 : ℤ), ps) ∈ groupByEns egTrials ∧ ((1 : ℤ), (0 : ℚ)) ∈ ps) ∧
    (groupByEns egTrials).length =
      (egTrials.map fun t => t.2.1).toFinset.card :=
  ⟨by decide,
    (eval_units_eq_distinct_ensembles egTrials).2.2 ((1, 2, 0) : ℤ × ℤ × ℚ)
      (by decide),
    (eval_units_eq_distinct_ensembles egTrials).1⟩

/-- The schedule used in the C4 witness: unscaled rate 8 at every step. -/
def egSched : Option (ℤ → ℚ) := some fun _ => 8

/-- A coordinator with the witness schedule attached, two parameter
groups, and start step 0. -/
def egOpt : ScheduledOptimizer := ScheduledOptimizer.init 0 egSched [0, 0]

/-- Length of each of the three generated lists: the surviving
suggestions plus `trials - len(memory)` random draws (when positive). -/
theorem genTrialLists_lengths (trials : ℤ) (m : Memory)
    (sugg : List (ℤ × ℤ × ℚ)) (randB randE : ℕ → ℤ) (randA : ℕ → ℚ)
    (h : (m.length : ℤ) < trials) :
    (genTrialLists trials m sugg randB randE randA).1.length =
      (if sugg.isEmpty then [] else suggestedNew m sugg).length +
        (trials - m.length).toNat ∧
    (genTrialLists trials m sugg randB randE randA).2.1.length =
      (if sugg.isEmpty then [] else suggestedNew m sugg).length +
        (trials - m.length).toNat ∧
    (genTrialLists trials m sugg randB randE randA).2.2.length =
      (if sugg.isEmpty then [] else suggestedNew m sugg).length +
        (trials - m.length).toNat := by
  have hn : (0 : ℤ) < trials - m.length := by omega
  simp only [genTrialLists, newTrialCount]
  rw [if_pos hn]
  simp [List.length_append, List.length_map, List.length_range]

/-- C7 as stated is false: with a loaded memory of `K = 1` entry, a
requested trial count `N = 3`, and one caller-suggested trial that
matches the memory key (so it is discarded), the code still generates
`N - K = 2 `random configurations — not fewer.  The random-sample count
`trials - len(memory)` never depends on the suggestions. -/
theorem random_count_ignores_suggested_cex :
    suggestedNew [(⟨2, 3, 0⟩, 10)] [(2, 3, 0)] = [] ∧
    (genTrialLists 3 [(⟨2, 3, 0⟩, 10)] [(2, 3, 0)]
        (fun _ => 5) (fun _ => 1) (fun _ => 0)).1.length = 2 ∧
    ¬ (genTrialLists 3 [(⟨2, 3, 0⟩, 10)] [(2, 3, 0)]
        (fun _ => 5) (fun _ => 1) (fun _ => 0)).1.length < 3 - 1 := by
  have h0 : round2 0 = 0 := by norm_num [round2]
  have hs : suggestedNew [(⟨2, 3, 0⟩, 10)] [(2, 3, 0)] = [] := by
    simp [suggestedNew, normalizeSuggested, memKeys, h0]
  refine ⟨hs, ?_, ?_⟩ <;> all_goals
    · norm_num [genTrialLists, hs, newTrialCount]
      try decide

/-- C7 amended: whenever the loaded memory has `K` entries and the
requested trial count `N` exceeds `K`, exactly `N - K` random
configurations are generated, REGARDLESS of the caller-suggested trials;
suggestions matching memory keys are merely dropped from the suggested
portion of the lists and never shrink the random sample. -/
theorem random_count_eq_trials_sub_memsize (trials : ℤ) (m : Memory)
    (sugg : List (ℤ × ℤ × ℚ)) (randB randE : ℕ → ℤ) (randA : ℕ → ℚ)
    (h : (m.length : ℤ) < trials) :
    newTrialCount trials m = trials - m.length ∧
    (genTrialLists trials m sugg randB randE randA).1.length =
      (if sugg.isEmpty then [] else suggestedNew m sugg).length +
        (trials - m.length).toNat :=
  ⟨rfl, (genTrialLists_lengths trials m sugg randB randE randA h).1⟩

theorem random_count_eq_trials_sub_memsize_witness :
    ((([(⟨2, 3, 0⟩, 10)] : Memory).length : ℤ) < 3) ∧
    (newTrialCount 3 [(⟨2, 3, 0⟩, 10)] = 3 - ([(⟨2, 3, 0⟩, 10)] : Memory).length ∧
      (genTrialLists 3 [(⟨2, 3, 0⟩, 10)] [(1, 1, 0)]
          (fun _ => 5) (fun _ => 1) (fun _ => 0)).1.length =
        (if ([((1 : ℤ), (1 : ℤ), (0 : ℚ))] : List (ℤ × ℤ × ℚ)).isEmpty then []
          else suggestedNew [(⟨2, 3, 0⟩, 10)] [(1, 1, 0)]).length +
          ((3 : ℤ) - ([(⟨2, 3, 0⟩, 10)] : Memory).length).toNat) :=
  ⟨by decide,
    random_count_eq_trials_sub_memsize 3 [(⟨2, 3, 0⟩, 10)] [(1, 1, 0)]
      (fun _ => 5) (fun _ => 1) (fun _ => 0) (by decide)⟩

/-- C10: with `S` surviving suggestions and `K = len(memory) < trials`,
the zipped trial list evaluated by the search has exactly
`S + (trials - K)` elements — the random-sample count is not reduced to
make room for suggestions — so the cumulative number of evaluations
(the `K` resumed ones plus this run) exceeds the target trial count
whenever `S > 0`. -/
theorem total_trials_exceed_target (trials : ℤ) (m : Memory)
    (sugg : List (ℤ × ℤ × ℚ)) (randB randE : ℕ → ℤ) (randA : ℕ → ℚ)
    (h : (m.length : ℤ) < trials) :
    (zippedTrials (genTrialLists trials m sugg randB randE randA).1
        (genTrialLists trials m sugg randB randE randA).2.1
        (genTrialLists trials m sugg randB randE randA).2.2).length =
      (if sugg.isEmpty then [] else suggestedNew m sugg).length +
        (trials - m.length).toNat ∧
    (0 < (if sugg.isEmpty then [] else suggestedNew m sugg).length →
      (trials : ℤ) < m.length +
        (zippedTrials (genTrialLists trials m sugg randB randE randA).1
          (genTrialLists trials m sugg randB randE randA).2.1
          (genTrialLists trials m sugg randB randE randA).2.2).length) := by
  obtain ⟨h1, h2, h3⟩ := genTrialLists_lengths trials m sugg randB randE randA h
  have hzip : (zippedTrials (genTrialLists trials m sugg randB randE randA).1
      (genTrialLists trials m sugg randB randE randA).2.1
      (genTrialLists trials m sugg randB randE randA).2.2).length =
      (if sugg.isEmpty then [] else suggestedNew m sugg).length +
        (trials - m.length).toNat := by
    simp [zippedTrials, List.length_zip, h1, h2, h3]
  refine ⟨hzip, fun hS => ?_⟩
  rw [hzip]
  omega

theorem total_trials_exceed_target_witness :
    ((([(⟨2, 3, 0⟩, 10)] : Memory).length : ℤ) < 3) ∧
    (zippedTrials (genTrialLists 3 [(⟨2, 3, 0⟩, 10)] [(1, 1, 0)]
          (fun _ => 5) (fun _ => 1) (fun _ => 0)).1
        (genTrialLists 3 [(⟨2, 3, 0⟩, 10)] [(1, 1, 0)]
          (fun _ => 5) (fun _ => 1) (fun _ => 0)).2.1
        (genTrialLists 3 [(⟨2, 3, 0⟩, 10)] [(1, 1, 0)]
          (fun _ => 5) (fun _ => 1) (fun _ => 0)).2.2).length =
      (if ([((1 : ℤ), (1 : ℤ), (0 : ℚ))] : List (ℤ × ℤ × ℚ)).isEmpty then []
        else suggestedNew [(⟨2, 3, 0⟩, 10)] [(1, 1, 0)]).length +
        ((3 : ℤ) - ([(⟨2, 3, 0⟩, 10)] : Memory).length).toNat :=
  ⟨by decide,
    (total_trials_exceed_target 3 [(⟨2, 3, 0⟩, 10)] [(1, 1, 0)]
      (fun _ => 5) (fun _ => 1) (fun _ => 0) (by decide)).1⟩

theorem step_divides_rate_witness :
    egOpt.schedule = some (fun _ => (8 : ℚ)) ∧ (1 : ℤ) < 4 ∧
    ((ScheduledOptimizer.step 4 egOpt).curr_lr =
        (fun _ => (8 : ℚ)) (egOpt.curr_step + 1) / ((4 : ℤ) : ℚ) ∧
      ∀ lr ∈ (ScheduledOptimizer.step 4 egOpt).param_groups,
        lr = (fun _ => (8 : ℚ)) (egOpt.curr_step + 1) / ((4 : ℤ) : ℚ)) :=
  ⟨rfl, by decide,
    step_divides_rate_by_world_size egOpt (fun _ => 8) 4 rfl (by decide)⟩

end RTG

